import Mathlib

/- Verification of the favicon-rustler core (src/lib.rs, src/utils.rs):
   the URL handling, the icon-discovery strategy chain and the
   fetch-and-rescale pipeline, shallowly embedded.  The network, the HTML
   parser (soup) and the image decoder are modelled as an explicit
   environment of pure functions; the url crate's parse/join/to_string
   are modelled concretely on character lists. -/

/-- Model of Rust str::starts_with. -/
def startsWithStr (s p : String) : Bool :=
  p.data.isPrefixOf s.data

/-- Split a character list at every occurrence of a separator character
(the url crate's path-segment splitting). -/
def splitChar (sep : Char) : List Char → List (List Char)
  | [] => [[]]
  | c :: rest =>
    if c == sep then [] :: splitChar sep rest
    else
      match splitChar sep rest with
      | h :: t => (c :: h) :: t
      | [] => [[c]]

/-- Render path segments with a separator character between them. -/
def joinSegs (sep : Char) : List (List Char) → List Char
  | [] => []
  | [s] => s
  | s :: rest => s ++ sep :: joinSegs sep rest

/-- Numeric value of a digit string (for port validation). -/
def charsToNat (l : List Char) : Nat :=
  l.foldl (fun n c => n * 10 + (c.toNat - 48)) 0

/-- A scheme is valid when nonempty, made of alphanumeric or plus, minus,
dot characters, and starting with a letter (RFC 3986, as enforced by the
url crate). -/
def validScheme (scheme : List Char) : Bool :=
  !scheme.isEmpty &&
  scheme.all (fun c => c.isAlphanum || c == '+' || c == '-' || c == '.') &&
  (match scheme with
   | c :: _ => c.isAlpha
   | [] => false)

/-- A port is valid when empty or a digit string below 65536 (u16), the
url crate rejects everything else with InvalidPort. -/
def portOk (p : List Char) : Bool :=
  p.isEmpty || (p.all Char.isDigit && decide (charsToNat p < 65536))

/-- A host is valid when nonempty, with at most one colon separating a
nonempty host name from a valid port. -/
def validHost (h : List Char) : Bool :=
  !h.isEmpty &&
  (match splitChar ':' h with
   | [_] => true
   | [hn, p] => !hn.isEmpty && portOk p
   | _ => false)

/-- Model of url::Url: scheme, host (possibly with port), path segments
and query.  An http(s) URL always has at least one path segment; the
root path is the single empty segment. -/
structure StdUrl where
  scheme : List Char
  host : List Char
  path : List (List Char)
  query : Option (List Char)
deriving DecidableEq

/-- Model of url::Url::parse: absolute URLs of the form
scheme://host/path?query.  Relative references fail (the url crate's
RelativeUrlWithoutBase), as do invalid schemes, hosts and ports. -/
def StdUrl.parse (s : String) : Option StdUrl :=
  let l := s.data
  let scheme := l.takeWhile (fun c => c != ':')
  match l.drop scheme.length with
  | ':' :: '/' :: '/' :: afterScheme =>
    if validScheme scheme then
      let hostPath := afterScheme.takeWhile (fun c => c != '?')
      let query :=
        match afterScheme.drop hostPath.length with
        | '?' :: q => some q
        | _ => none
      match splitChar '/' hostPath with
      | host :: segs =>
        if validHost host then
          some ⟨scheme, host, if segs.isEmpty then [[]] else segs, query⟩
        else none
      | [] => none
    else none
  | _ => none

/-- Model of url::Url::to_string. -/
def StdUrl.toString (u : StdUrl) : String :=
  ⟨u.scheme ++ ':' :: '/' :: '/' :: (u.host ++ '/' :: joinSegs '/' u.path ++
    (match u.query with
     | some q => '?' :: q
     | none => []))⟩

/-- Model of url::Url::join, resolving a reference against a base URL:
an absolute reference wins, a protocol-relative reference takes the base
scheme (and can fail on an invalid authority), a path-absolute reference
replaces the path, and a relative path replaces the last segment. -/
def StdUrl.join (base : StdUrl) (ref : String) : Option StdUrl :=
  match StdUrl.parse ref with
  | some u => some u
  | none =>
    let l := ref.data
    if ['/', '/'].isPrefixOf l then
      StdUrl.parse ⟨base.scheme ++ ':' :: l⟩
    else
      let pathPart := l.takeWhile (fun c => c != '?')
      let query :=
        match l.drop pathPart.length with
        | '?' :: q => some q
        | _ => none
      match pathPart with
      | '/' :: pabs => some { base with path := splitChar '/' pabs, query := query }
      | _ => some { base with
                     path := base.path.dropLast ++ splitChar '/' pathPart,
                     query := query }

/-- The base URL of the running example site. -/
def exBase : StdUrl := ⟨"https".data, "example.com".data, [[]], none⟩

example : StdUrl.parse "https://example.com" = some exBase := rfl

example : StdUrl.toString exBase = "https://example.com/" := rfl

example : (StdUrl.join exBase "/static/icon.png").map StdUrl.toString =
    some "https://example.com/static/icon.png" := rfl

example : (StdUrl.join exBase "favicon.ico").map StdUrl.toString =
    some "https://example.com/favicon.ico" := rfl

example : StdUrl.parse "/static/icon.png" = none := rfl

example : StdUrl.join exBase "//h:99999999999" = none := rfl

example : (StdUrl.parse
    "https://t3.gstatic.com/faviconV2?client=SOCIAL&url=https://example.com&size=128").isSome
    = true := rfl

/-- A parsed HTML element: tag name and attributes, as produced by the
soup crate's parse of the root document (soup flattens the DOM into
document order). -/
structure HtmlElement where
  name : String
  attrs : List (String × String)
deriving DecidableEq

/-- Model of soup's NodeExt::get: the value of the first attribute with
the given name. -/
def HtmlElement.get (e : HtmlElement) (attr : String) : Option String :=
  (e.attrs.find? (fun p => p.1 == attr)).map (fun p => p.2)

/-- Model of soup.tag(name).find_all(): every element whose tag name
equals the pattern, in document order. -/
def findAll (doc : List HtmlElement) (tagName : String) : List HtmlElement :=
  doc.filter (fun e => e.name == tagName)

/-- Model of soup.tag("meta").attr("property", "og:image").find(): the
first meta element whose property attribute is og:image. -/
def findOgImage (doc : List HtmlElement) : Option HtmlElement :=
  doc.find? (fun e => e.name == "meta" && HtmlElement.get e "property" == some "og:image")

/-- Model of serde_json::Value. -/
inductive Json where
  | null : Json
  | bool : Bool → Json
  | num : Int → Json
  | str : String → Json
  | arr : List Json → Json
  | obj : List (String × Json) → Json

/-- Model of serde_json Value indexing by string key: Null when the
value is not an object or the key is absent. -/
def Json.index (j : Json) (key : String) : Json :=
  match j with
  | .obj fields =>
    match fields.find? (fun p => p.1 == key) with
    | some p => p.2
    | none => .null
  | _ => .null

/-- Model of Value::as_array. -/
def Json.asArray : Json → Option (List Json)
  | .arr xs => some xs
  | _ => none

/-- Model of Value::as_str. -/
def Json.asStr : Json → Option String
  | .str s => some s
  | _ => none

/-- An HTTP response as observed by the worker: status code plus the
outcomes of reading the body as text, as JSON and as raw bytes. -/
structure HttpResponse where
  statusCode : Nat
  textResult : Except String String
  jsonResult : Except String Json
  bytesResult : Except String (List Nat)

/-- Decoded pixel data plus dimensions (the image crate's DynamicImage). -/
structure RasterImage where
  width : Nat
  height : Nat
  pixels : Nat → Nat → Nat

/-- Output encodings of the image crate. -/
inductive ImageFormat where
  | png
  | jpeg
deriving DecidableEq

/-- An encoded output buffer, tagged with the format it was written in. -/
structure EncodedImage where
  format : ImageFormat
  image : RasterImage

/-- The host environment: GET fetch, HEAD fetch, the soup HTML parse and
the image decoder, all as pure functions keyed by the serialized URL. -/
structure Env where
  fetchGet : String → Except String HttpResponse
  fetchHead : String → Except String HttpResponse
  parseHtml : String → List HtmlElement
  decodeImage : List Nat → Except String RasterImage

/-- Model of is_website_up (utils.rs lines 8-11): parse the URL, GET it,
and report whether the status is in the 2xx range; parse and transport
failures propagate as Err. -/
def is_website_up (env : Env) (url : String) : Except String Bool :=
  match StdUrl.parse url with
  | none => .error "invalid URL"
  | some u =>
    match env.fetchGet u.toString with
    | .error e => .error e
    | .ok resp => .ok (decide (200 ≤ resp.statusCode ∧ resp.statusCode < 300))

/-- The three outcomes of the reachability gate in main (lib.rs lines
21-25): proceed on Ok(true), a 404 "Website is not accessible" response
on Ok(false), and a 500 "Failed to check website accessibility"
response on Err. -/
inductive ReachabilityOutcome where
  | proceed
  | notAccessibleResponse
  | checkFailedResponse
deriving DecidableEq

/-- Model of the match on is_website_up in main (lib.rs lines 21-25). -/
def reachabilityGate (r : Except String Bool) : ReachabilityOutcome :=
  match r with
  | .ok true => .proceed
  | .ok false => .notAccessibleResponse
  | .error _ => .checkFailedResponse

/-- Model of check_url_exists (utils.rs lines 141-146): parse the URL,
issue a HEAD request and report whether the status is exactly 200. -/
def check_url_exists (env : Env) (url : String) : Except String Bool :=
  match StdUrl.parse url with
  | none => .error "relative URL without a base"
  | some parsed =>
    match env.fetchHead parsed.toString with
    | .error e => .error e
    | .ok resp => .ok (resp.statusCode == 200)

/-- The icons loop of process_manifest (utils.rs lines 124-135): the
first entry with a string src field decides; an absolute http(s) src is
returned verbatim, otherwise it is joined against the base URL and a
join failure propagates (the map_err + question mark on line 130). -/
def manifestIconsLoop (base : StdUrl) : List Json → Except String (Option String)
  | [] => .ok none
  | icon :: rest =>
    match Json.asStr (Json.index icon "src") with
    | some src =>
      if startsWithStr src "http://" || startsWithStr src "https://" then
        .ok (some src)
      else
        match StdUrl.join base src with
        | some u => .ok (some u.toString)
        | none => .error "invalid URL"
    | none => manifestIconsLoop base rest

/-- Model of process_manifest (utils.rs lines 109-137): the manifest
href is parsed directly (never joined against the base URL), the
manifest is fetched and read as JSON, and the icons array is searched;
every failure is returned as Err. -/
def process_manifest (env : Env) (manifestUrl : String) (base : StdUrl) :
    Except String (Option String) :=
  match StdUrl.parse manifestUrl with
  | none => .error "relative URL without a base"
  | some parsed =>
    match env.fetchGet parsed.toString with
    | .error e => .error e
    | .ok resp =>
      match resp.jsonResult with
      | .error e => .error e
      | .ok manifest =>
        match Json.asArray (Json.index manifest "icons") with
        | some icons => manifestIconsLoop base icons
        | none => .ok none

/-- Model of validate_and_construct_url (utils.rs lines 100-106). -/
def validate_and_construct_url (link : String) (base : StdUrl) : Except String String :=
  if startsWithStr link "http://" || startsWithStr link "https://" then
    .ok link
  else
    match StdUrl.join base link with
    | some u => .ok u.toString
    | none => .error "invalid URL"

/-- The entry "link[rel='manifest']" of the icons array in find_icon_url
(utils.rs line 38), written with escaped quotes. -/
def manifestKey : String := "link[rel=\x27manifest\x27]"

/-- Model of icon.split_once('[').unwrap_or((icon, "")).0 (utils.rs line
45): the part of the pattern before the first opening bracket. -/
def tagOf (icon : String) : String :=
  ⟨icon.data.takeWhile (fun c => c != '[')⟩

/-- The icons search table of find_icon_url (utils.rs lines 34-39). -/
def iconsList : List (String × String) :=
  [("apple-touch-icon", "href"), ("icon", "href"), ("shortcut icon", "href"),
   (manifestKey, "href")]

/-- The inner element loop of find_icon_url (utils.rs lines 47-62): for
the manifest entry only an Ok(Some) from process_manifest returns, any
other outcome falls through to the next element; for the other entries
an absolute http(s) href returns verbatim, a relative href is joined
against the base URL and a join failure propagates (the question mark on
line 56). -/
def scanElements (env : Env) (base : StdUrl) (icon attrName : String) :
    List HtmlElement → Except String (Option String)
  | [] => .ok none
  | e :: rest =>
    match HtmlElement.get e attrName with
    | none => scanElements env base icon attrName rest
    | some link =>
      if icon == manifestKey then
        match process_manifest env link base with
        | .ok (some iconUrl) => .ok (some iconUrl)
        | _ => scanElements env base icon attrName rest
      else
        if startsWithStr link "http://" || startsWithStr link "https://" then
          .ok (some link)
        else
          match StdUrl.join base link with
          | some u => .ok (some u.toString)
          | none => .error "invalid URL"

/-- The outer loop of find_icon_url over the icons table (utils.rs lines
43-63): each entry scans the elements whose tag name matches the part of
the pattern before any bracket. -/
def scanIcons (env : Env) (doc : List HtmlElement) (base : StdUrl) :
    List (String × String) → Except String (Option String)
  | [] => .ok none
  | (icon, attr) :: rest =>
    match scanElements env base icon attr (findAll doc (tagOf icon)) with
    | .ok (some u) => .ok (some u)
    | .ok none => scanIcons env doc base rest
    | .error e => .error e

/-- The well-known locations table (utils.rs line 66). -/
def wellKnownIcons : List String := ["favicon.ico", "favicon.png", "apple-touch-icon.png"]

/-- The well-known location loop of find_icon_url (utils.rs lines
67-76): join each name against the base URL (a join failure propagates,
line 68) and return the first whose existence check answers Ok(true);
any other outcome moves to the next name. -/
def wellKnownLoop (env : Env) (base : StdUrl) : List String → Except String (Option String)
  | [] => .ok none
  | p :: rest =>
    match StdUrl.join base p with
    | none => .error "invalid URL"
    | some iconUrl =>
      match check_url_exists env iconUrl.toString with
      | .ok true => .ok (some iconUrl.toString)
      | _ => wellKnownLoop env base rest

/-- The fallback service URL (utils.rs line 88). -/
def fallbackUrlOf (url : String) : String :=
  "https://t3.gstatic.com/faviconV2?client=SOCIAL&type=FAVICON&fallback_opts=TYPE,SIZE,URL&url="
    ++ url ++ "&size=128"

/-- The external fallback step of find_icon_url (utils.rs lines 88-96):
return the fallback URL when its existence check answers Ok(true),
otherwise report that no icon was found. -/
def fallbackStep (env : Env) (url : String) : Except String (Option String) :=
  match check_url_exists env (fallbackUrlOf url) with
  | .ok true => .ok (some (fallbackUrlOf url))
  | _ => .ok none

/-- The og:image step of find_icon_url (utils.rs lines 79-85): the first
meta tag with property og:image decides through validate_and_construct_url,
whose failure propagates (the question mark on line 81); with no such
tag, or no content attribute, control reaches the fallback step. -/
def ogStep (env : Env) (url : String) (doc : List HtmlElement) (base : StdUrl) :
    Except String (Option String) :=
  match findOgImage doc with
  | some og =>
    match HtmlElement.get og "content" with
    | some content =>
      match validate_and_construct_url content base with
      | .ok fullUrl => .ok (some fullUrl)
      | .error e => .error e
    | none => fallbackStep env url
  | none => fallbackStep env url

/-- Everything find_icon_url does after the link-tag scan found nothing
(utils.rs lines 65-96): well-known locations, then og:image, then the
fallback service. -/
def afterScan (env : Env) (url : String) (doc : List HtmlElement) (base : StdUrl) :
    Except String (Option String) :=
  match wellKnownLoop env base wellKnownIcons with
  | .error e => .error e
  | .ok (some u) => .ok (some u)
  | .ok none => ogStep env url doc base

/-- Model of find_icon_url (utils.rs lines 28-97): parse the URL, fetch
the root document, read it as text, parse it as HTML, run the icons
table scan, and on no candidate continue with the later strategies.
Lines 29 and 32 parse the same string, so a single parse is taken. -/
def find_icon_url (env : Env) (url : String) : Except String (Option String) :=
  match StdUrl.parse url with
  | none => .error "invalid URL"
  | some base =>
    match env.fetchGet base.toString with
    | .error e => .error e
    | .ok resp =>
      match resp.textResult with
      | .error e => .error e
      | .ok html =>
        match scanIcons env (env.parseHtml html) base iconsList with
        | .error e => .error e
        | .ok (some u) => .ok (some u)
        | .ok none => afterScan env url (env.parseHtml html) base

/-- Model of resize_image (utils.rs lines 162-168): the image crate's
resize_exact with FilterType::Nearest scales width and height
independently by nearest-neighbor sampling and never preserves aspect
ratio. -/
def resizeExactNearest (img : RasterImage) (w h : Nat) : RasterImage :=
  { width := w, height := h,
    pixels := fun x y => img.pixels (x * img.width / w) (y * img.height / h) }

/-- Model of DynamicImage::write_to with ImageOutputFormat::Png. -/
def writeToPng (img : RasterImage) : EncodedImage :=
  ⟨.png, img⟩

/-- Model of resize_image (utils.rs lines 162-168), with the image
crate's load_from_memory supplied as the decoder. -/
def resize_image (decode : List Nat → Except String RasterImage)
    (imageData : List Nat) (size : Nat) : Except String EncodedImage :=
  match decode imageData with
  | .error e => .error e
  | .ok img => .ok (writeToPng (resizeExactNearest img size size))

/-- Model of fetch_and_scale_icon (utils.rs lines 150-158): fetch the
candidate URL; on a 2xx status read the bytes and resize, otherwise fail
with a fetch error carrying the observed status, without touching the
body. -/
def fetch_and_scale_icon (env : Env) (url : String) (size : Nat) :
    Except String EncodedImage :=
  match StdUrl.parse url with
  | none => .error "invalid URL"
  | some u =>
    match env.fetchGet u.toString with
    | .error e => .error e
    | .ok resp =>
      if 200 ≤ resp.statusCode ∧ resp.statusCode < 300 then
        match resp.bytesResult with
        | .error e => .error e
        | .ok bytes => resize_image env.decodeImage bytes size
      else
        .error ("Failed to fetch the original image: HTTP " ++ Nat.repr resp.statusCode)

example : tagOf manifestKey = "link" := rfl

example : tagOf "apple-touch-icon" = "apple-touch-icon" := rfl

/-- A path segment of a parsed URL holds no slash and no question mark. -/
def SegWF (seg : List Char) : Prop := '/' ∉ seg ∧ '?' ∉ seg

/-- Well-formedness of a parsed URL: a valid scheme and host, no
separator characters hiding in the host, and a nonempty path of
well-formed segments.  Every URL produced by parse or join satisfies
this. -/
def StdUrl.WF (u : StdUrl) : Prop :=
  validScheme u.scheme = true ∧ validHost u.host = true ∧
  '/' ∉ u.host ∧ '?' ∉ u.host ∧ u.path ≠ [] ∧ ∀ seg ∈ u.path, SegWF seg

theorem splitChar_ne_nil (sep : Char) (l : List Char) : splitChar sep l ≠ [] := by
  induction l with
  | nil => simp [splitChar]
  | cons c rest ih =>
    simp only [splitChar]
    split
    · simp
    · split
      · simp
      · simp

theorem mem_splitChar_subset (sep : Char) (l : List Char) :
    ∀ p ∈ splitChar sep l, ∀ c ∈ p, c ∈ l := by
  induction l with
  | nil => intro p hp c hc; simp [splitChar] at hp; subst hp; simp at hc
  | cons a rest ih =>
    intro p hp c hc
    simp only [splitChar] at hp
    split at hp
    · rcases List.mem_cons.mp hp with h | h
      · subst h; simp at hc
      · exact List.mem_cons_of_mem a (ih p h c hc)
    · rename_i hne
      rcases hsp : splitChar sep rest with _ | ⟨h₀, t⟩
      · exact absurd hsp (splitChar_ne_nil sep rest)
      · rw [hsp] at hp
        rcases List.mem_cons.mp hp with h | h
        · subst h
          rcases List.mem_cons.mp hc with h | h
          · subst h; exact List.mem_cons_self c rest
          · exact List.mem_cons_of_mem a (ih h₀ (by rw [hsp]; exact List.mem_cons_self h₀ t) c h)
        · exact List.mem_cons_of_mem a (ih p (by rw [hsp]; exact List.mem_cons_of_mem h₀ h) c hc)

theorem not_sep_mem_splitChar (sep : Char) (l : List Char) :
    ∀ p ∈ splitChar sep l, sep ∉ p := by
  induction l with
  | nil => intro p hp; simp [splitChar] at hp; subst hp; simp
  | cons a rest ih =>
    intro p hp
    simp only [splitChar] at hp
    split at hp
    · rcases List.mem_cons.mp hp with h | h
      · subst h; simp
      · exact ih p h
    · rename_i hne
      rcases hsp : splitChar sep rest with _ | ⟨h₀, t⟩
      · exact absurd hsp (splitChar_ne_nil sep rest)
      · rw [hsp] at hp
        rcases List.mem_cons.mp hp with h | h
        · subst h
          intro hmem
          rcases List.mem_cons.mp hmem with h | h
          · exact absurd (beq_iff_eq.mpr h.symm) (by simpa using hne)
          · exact ih h₀ (by rw [hsp]; exact List.mem_cons_self h₀ t) h
        · exact ih p (by rw [hsp]; exact List.mem_cons_of_mem h₀ h)

theorem splitChar_sepFree (sep : Char) (l : List Char) (h : sep ∉ l) :
    splitChar sep l = [l] := by
  induction l with
  | nil => simp [splitChar]
  | cons a rest ih =>
    simp only [splitChar]
    have ha : ¬(a == sep) = true := by
      intro hab
      exact h (by rw [beq_iff_eq.mp hab]; exact List.mem_cons_self sep rest)
    rw [if_neg ha, ih (fun hm => h (List.mem_cons_of_mem a hm))]

theorem splitChar_append (sep : Char) (a b : List Char) (h : sep ∉ a) :
    splitChar sep (a ++ sep :: b) = a :: splitChar sep b := by
  induction a with
  | nil => simp [splitChar]
  | cons c rest ih =>
    simp only [List.cons_append, splitChar]
    have hc : ¬(c == sep) = true := by
      intro hcb
      exact h (by rw [beq_iff_eq.mp hcb]; exact List.mem_cons_self sep rest)
    rw [if_neg hc]
    simp only [List.append_eq]
    rw [ih (fun hm => h (List.mem_cons_of_mem c hm))]

theorem splitChar_joinSegs (sep : Char) (segs : List (List Char)) (hne : segs ≠ [])
    (hfree : ∀ s ∈ segs, sep ∉ s) : splitChar sep (joinSegs sep segs) = segs := by
  induction segs with
  | nil => exact absurd rfl hne
  | cons s rest ih =>
    rcases rest with _ | ⟨s₂, rest₂⟩
    · simp only [joinSegs]
      exact splitChar_sepFree sep s (hfree s (List.mem_cons_self s []))
    · simp only [joinSegs]
      rw [splitChar_append sep s _ (hfree s (List.mem_cons_self s _)),
        ih (by simp) (fun t ht => hfree t (List.mem_cons_of_mem s ht))]

theorem takeWhile_all_append (p : Char → Bool) (a : List Char) (c : Char) (b : List Char)
    (ha : ∀ x ∈ a, p x = true) (hc : p c = false) :
    (a ++ c :: b).takeWhile p = a := by
  induction a with
  | nil => simp [List.takeWhile, hc]
  | cons x rest ih =>
    simp only [List.cons_append, List.takeWhile]
    rw [ha x (List.mem_cons_self x rest)]
    simp only [List.cons.injEq, true_and]
    exact ih (fun y hy => ha y (List.mem_cons_of_mem x hy))

theorem mem_takeWhile_ne (l : List Char) (stop c : Char)
    (h : c ∈ l.takeWhile (fun x => x != stop)) : c ≠ stop := by
  have := List.mem_takeWhile_imp h
  simpa using this

theorem segWF_of_splitChar (src p : List Char) (hp : p ∈ splitChar '/' src)
    (hsub : ∀ c ∈ src, c ≠ '?') : SegWF p := by
  constructor
  · exact not_sep_mem_splitChar '/' src p hp
  · intro hq
    exact hsub '?' (mem_splitChar_subset '/' src p hp '?' hq) rfl

theorem parse_WF (s : String) (u : StdUrl) (h : StdUrl.parse s = some u) : u.WF := by
  simp only [StdUrl.parse] at h
  split at h
  · rename_i afterScheme heq
    split at h
    · rename_i hscheme
      split at h
      · rename_i host segs hsplit
        split at h
        · rename_i hhost
          injection h with h
          subst h
          have hmemHost : host ∈ splitChar '/' (afterScheme.takeWhile (fun c => c != '?')) := by
            rw [hsplit]; exact List.mem_cons_self host segs
          have hsubQ : ∀ c ∈ afterScheme.takeWhile (fun c => c != '?'), c ≠ '?' :=
            fun c hc => mem_takeWhile_ne afterScheme '?' c hc
          have hhostWF : SegWF host := segWF_of_splitChar _ host hmemHost hsubQ
          refine ⟨hscheme, hhost, hhostWF.1, hhostWF.2, ?_, ?_⟩
          · cases segs <;> simp
          · intro seg hseg
            cases segs with
            | nil =>
              simp at hseg
              subst hseg
              exact ⟨by simp, by simp⟩
            | cons s₂ rest₂ =>
              simp only [List.isEmpty_cons, if_neg] at hseg
              have : seg ∈ splitChar '/' (afterScheme.takeWhile (fun c => c != '?')) := by
                rw [hsplit]
                exact List.mem_cons_of_mem host (by simpa using hseg)
              exact segWF_of_splitChar _ seg this hsubQ
        · exact absurd h (by simp)
      · exact absurd h (by simp)
    · exact absurd h (by simp)
  · exact absurd h (by simp)

theorem join_WF (base : StdUrl) (ref : String) (u : StdUrl) (hbase : base.WF)
    (h : StdUrl.join base ref = some u) : u.WF := by
  simp only [StdUrl.join] at h
  split at h
  · rename_i u' hpu
    injection h with h
    exact h ▸ parse_WF ref u' hpu
  · split at h
    · exact parse_WF _ u h
    · split at h
      · rename_i pabs hpp
        injection h with h
        subst h
        refine ⟨hbase.1, hbase.2.1, hbase.2.2.1, hbase.2.2.2.1, splitChar_ne_nil '/' pabs, ?_⟩
        intro seg hseg
        refine segWF_of_splitChar pabs seg hseg (fun c hc => ?_)
        exact mem_takeWhile_ne ref.data '?' c (by rw [hpp]; exact List.mem_cons_of_mem '/' hc)
      · injection h with h
        subst h
        refine ⟨hbase.1, hbase.2.1, hbase.2.2.1, hbase.2.2.2.1, ?_, ?_⟩
        · intro hnil
          exact splitChar_ne_nil '/' _ (List.append_eq_nil.mp hnil).2
        · intro seg hseg
          rcases List.mem_append.mp hseg with hl | hr
          · exact hbase.2.2.2.2.2 seg (List.dropLast_subset base.path hl)
          · exact segWF_of_splitChar _ seg hr
              (fun c hc => mem_takeWhile_ne ref.data '?' c hc)

theorem validScheme_no_colon (scheme : List Char) (h : validScheme scheme = true) :
    ∀ c ∈ scheme, (c != ':') = true := by
  simp only [validScheme, Bool.and_eq_true, List.all_eq_true] at h
  intro c hc
  have hch := h.1.2 c hc
  rcases eq_or_ne c ':' with rfl | hne
  · exact absurd hch (by decide)
  · simpa using hne

theorem mem_joinSegs (sep : Char) (segs : List (List Char)) (c : Char)
    (h : c ∈ joinSegs sep segs) : c = sep ∨ ∃ s ∈ segs, c ∈ s := by
  induction segs with
  | nil => simp [joinSegs] at h
  | cons s rest ih =>
    rcases rest with _ | ⟨s₂, rest₂⟩
    · simp only [joinSegs] at h
      exact Or.inr ⟨s, List.mem_cons_self s [], h⟩
    · simp only [joinSegs] at h
      rcases List.mem_append.mp h with hl | hr
      · exact Or.inr ⟨s, List.mem_cons_self s _, hl⟩
      · rcases List.mem_cons.mp hr with hc | hc
        · exact Or.inl hc
        · rcases ih hc with hc' | ⟨t, ht, hct⟩
          · exact Or.inl hc'
          · exact Or.inr ⟨t, List.mem_cons_of_mem s ht, hct⟩

theorem hostPath_no_quest (host : List Char) (path : List (List Char))
    (hquest : '?' ∉ host) (hsegs : ∀ seg ∈ path, SegWF seg) :
    ∀ c ∈ host ++ '/' :: joinSegs '/' path, (c != '?') = true := by
  intro c hc
  have hne : c ≠ '?' := by
    rcases List.mem_append.mp hc with hl | hr
    · intro hq; subst hq; exact hquest hl
    · rcases List.mem_cons.mp hr with hc' | hc'
      · subst hc'; decide
      · rcases mem_joinSegs '/' path c hc' with hc'' | ⟨s, hs, hcs⟩
        · subst hc''; decide
        · intro hq; subst hq; exact (hsegs s hs).2 hcs
  simpa using hne

theorem parse_toString (u : StdUrl) (h : u.WF) : StdUrl.parse u.toString = some u := by
  obtain ⟨scheme, host, path, query⟩ := u
  obtain ⟨hscheme, hhost, hslash, hquest, hpne, hsegs⟩ := h
  replace hscheme : validScheme scheme = true := hscheme
  replace hhost : validHost host = true := hhost
  replace hslash : '/' ∉ host := hslash
  replace hquest : '?' ∉ host := hquest
  replace hpne : path ≠ [] := hpne
  replace hsegs : ∀ seg ∈ path, SegWF seg := hsegs
  have hcolon : ∀ c ∈ scheme, (c != ':') = true := validScheme_no_colon scheme hscheme
  have hq : ∀ c ∈ host ++ '/' :: joinSegs '/' path, (c != '?') = true :=
    hostPath_no_quest host path hquest hsegs
  have hsplitHP : splitChar '/' (host ++ '/' :: joinSegs '/' path)
      = host :: path := by
    rw [splitChar_append '/' host _ hslash,
      splitChar_joinSegs '/' path hpne (fun s hs => (hsegs s hs).1)]
  have hifp : (if path.isEmpty then ([[]] : List (List Char)) else path) = path := by
    cases path with
    | nil => exact absurd rfl hpne
    | cons a b => rfl
  cases query with
  | none =>
    simp only [StdUrl.parse, StdUrl.toString, List.append_nil]
    rw [takeWhile_all_append _ scheme ':' _ hcolon (by decide), List.drop_left]
    simp only [List.takeWhile_eq_self_iff.mpr hq, List.drop_length, hscheme, if_true,
      hsplitHP, hhost, hifp]
  | some q =>
    have htk2 : List.takeWhile (fun c => c != '?')
        ((host ++ '/' :: joinSegs '/' path) ++ '?' :: q) = host ++ '/' :: joinSegs '/' path :=
      takeWhile_all_append _ _ '?' _ hq (by decide)
    have hdrop2 : ((host ++ '/' :: joinSegs '/' path) ++ '?' :: q).drop
        (host ++ '/' :: joinSegs '/' path).length = '?' :: q := List.drop_left _ _
    simp only [StdUrl.parse, StdUrl.toString]
    rw [takeWhile_all_append _ scheme ':' _ hcolon (by decide), List.drop_left]
    simp only [htk2, hdrop2, hscheme, if_true, hsplitHP, hhost, hifp]

/-- A candidate string is absolute: either it starts with http:// or
https:// (and was returned verbatim), or it is the serialization of a
well-formed parsed URL (and was produced by resolution against the base
URL). -/
def AbsoluteCandidate (s : String) : Prop :=
  startsWithStr s "http://" = true ∨ startsWithStr s "https://" = true ∨
  ∃ u : StdUrl, StdUrl.WF u ∧ s = StdUrl.toString u

theorem ok_some_inj {s t : String} (h : (Except.ok (some s) : Except String (Option String)) = .ok (some t)) : s = t := by
  injection h with h
  injection h

theorem manifestIconsLoop_abs (base : StdUrl) (hbase : base.WF) (icons : List Json)
    (s : String) (h : manifestIconsLoop base icons = .ok (some s)) : AbsoluteCandidate s := by
  induction icons with
  | nil => simp [manifestIconsLoop] at h
  | cons icon rest ih =>
    simp only [manifestIconsLoop] at h
    split at h
    · split at h
      · rename_i src hsrc hstart
        rw [← ok_some_inj h]
        simp only [Bool.or_eq_true] at hstart
        rcases hstart with h' | h'
        · exact Or.inl h'
        · exact Or.inr (Or.inl h')
      · split at h
        · rename_i u hju
          rw [← ok_some_inj h]
          exact Or.inr (Or.inr ⟨u, join_WF base _ u hbase hju, rfl⟩)
        · exact absurd h (by simp)
    · exact ih h

theorem process_manifest_abs (env : Env) (manifestUrl : String) (base : StdUrl)
    (hbase : base.WF) (s : String) (h : process_manifest env manifestUrl base = .ok (some s)) :
    AbsoluteCandidate s := by
  simp only [process_manifest] at h
  split at h
  · exact absurd h (by simp)
  · split at h
    · exact absurd h (by simp)
    · split at h
      · exact absurd h (by simp)
      · split at h
        · exact manifestIconsLoop_abs base hbase _ s h
        · exact absurd h (by simp)

theorem validate_abs (link : String) (base : StdUrl) (hbase : base.WF) (s : String)
    (h : validate_and_construct_url link base = .ok s) : AbsoluteCandidate s := by
  simp only [validate_and_construct_url] at h
  split at h
  · rename_i hstart
    injection h with h
    subst h
    simp only [Bool.or_eq_true] at hstart
    rcases hstart with h' | h'
    · exact Or.inl h'
    · exact Or.inr (Or.inl h')
  · split at h
    · rename_i u hju
      injection h with h
      subst h
      exact Or.inr (Or.inr ⟨u, join_WF base link u hbase hju, rfl⟩)
    · exact absurd h (by simp)

theorem scanElements_abs (env : Env) (base : StdUrl) (icon attr : String)
    (hbase : base.WF) (elems : List HtmlElement) (s : String)
    (h : scanElements env base icon attr elems = .ok (some s)) : AbsoluteCandidate s := by
  induction elems with
  | nil => simp [scanElements] at h
  | cons e rest ih =>
    simp only [scanElements] at h
    split at h
    · exact ih h
    · rename_i link hlink
      split at h
      · split at h
        · rename_i iconUrl hpm
          rw [← ok_some_inj h]
          exact process_manifest_abs env link base hbase iconUrl hpm
        · exact ih h
      · split at h
        · rename_i hstart
          rw [← ok_some_inj h]
          simp only [Bool.or_eq_true] at hstart
          rcases hstart with h' | h'
          · exact Or.inl h'
          · exact Or.inr (Or.inl h')
        · split at h
          · rename_i u hju
            rw [← ok_some_inj h]
            exact Or.inr (Or.inr ⟨u, join_WF base link u hbase hju, rfl⟩)
          · exact absurd h (by simp)

theorem scanIcons_abs (env : Env) (doc : List HtmlElement) (base : StdUrl)
    (hbase : base.WF) (list : List (String × String)) (s : String)
    (h : scanIcons env doc base list = .ok (some s)) : AbsoluteCandidate s := by
  induction list with
  | nil => simp [scanIcons] at h
  | cons entry rest ih =>
    obtain ⟨icon, attr⟩ := entry
    simp only [scanIcons] at h
    split at h
    · rename_i u' hse
      rw [← ok_some_inj h]
      exact scanElements_abs env base icon attr hbase _ u' hse
    · exact ih h
    · exact absurd h (by simp)

theorem wellKnownLoop_abs (env : Env) (base : StdUrl) (hbase : base.WF)
    (list : List String) (s : String)
    (h : wellKnownLoop env base list = .ok (some s)) : AbsoluteCandidate s := by
  induction list with
  | nil => simp [wellKnownLoop] at h
  | cons p rest ih =>
    simp only [wellKnownLoop] at h
    split at h
    · exact absurd h (by simp)
    · rename_i iconUrl hj
      split at h
      · rw [← ok_some_inj h]
        exact Or.inr (Or.inr ⟨iconUrl, join_WF base p iconUrl hbase hj, rfl⟩)
      · exact ih h

theorem fallback_https (url : String) : startsWithStr (fallbackUrlOf url) "https://" = true := rfl

theorem fallbackStep_abs (env : Env) (url s : String)
    (h : fallbackStep env url = .ok (some s)) : AbsoluteCandidate s := by
  simp only [fallbackStep] at h
  split at h
  · rw [← ok_some_inj h]
    exact Or.inr (Or.inl (fallback_https url))
  · exact absurd h (by simp)

theorem ogStep_abs (env : Env) (url : String) (doc : List HtmlElement) (base : StdUrl)
    (hbase : base.WF) (s : String)
    (h : ogStep env url doc base = .ok (some s)) : AbsoluteCandidate s := by
  simp only [ogStep] at h
  split at h
  · split at h
    · split at h
      · rename_i fullUrl hv
        rw [← ok_some_inj h]
        exact validate_abs _ base hbase fullUrl hv
      · exact absurd h (by simp)
    · exact fallbackStep_abs env url s h
  · exact fallbackStep_abs env url s h

theorem afterScan_abs (env : Env) (url : String) (doc : List HtmlElement) (base : StdUrl)
    (hbase : base.WF) (s : String)
    (h : afterScan env url doc base = .ok (some s)) : AbsoluteCandidate s := by
  simp only [afterScan] at h
  split at h
  · exact absurd h (by simp)
  · rename_i u' hw
    rw [← ok_some_inj h]
    exact wellKnownLoop_abs env base hbase wellKnownIcons u' hw
  · exact ogStep_abs env url doc base hbase s h

theorem find_icon_url_after_scan (env : Env) (url : String) (base : StdUrl)
    (resp : HttpResponse) (html : String)
    (hp : StdUrl.parse url = some base)
    (hg : env.fetchGet base.toString = .ok resp)
    (ht : resp.textResult = .ok html)
    (hs : scanIcons env (env.parseHtml html) base iconsList = .ok none) :
    find_icon_url env url = afterScan env url (env.parseHtml html) base := by
  simp only [find_icon_url, hp, hg, ht, hs]

/-- C9: every IconCandidate returned by find_icon_url (from any of the
strategies) is an absolute URL: an href or content value that already
starts with http:// or https:// is returned unchanged, and any other
value is resolved against the base URL (or is the fallback service URL,
which starts with https://) before being surfaced. -/
theorem c9_absolute_candidates (env : Env) (url s : String)
    (h : find_icon_url env url = .ok (some s)) : AbsoluteCandidate s := by
  simp only [find_icon_url] at h
  split at h
  · exact absurd h (by simp)
  · rename_i base hp
    have hbase := parse_WF url base hp
    split at h
    · exact absurd h (by simp)
    · split at h
      · exact absurd h (by simp)
      · split at h
        · exact absurd h (by simp)
        · rename_i u' hs
          rw [← ok_some_inj h]
          exact scanIcons_abs env _ base hbase iconsList u' hs
        · exact afterScan_abs env url _ base hbase s h

/-- A 200 response whose body is not JSON (an HTML page or an image). -/
def respOkNoJson : HttpResponse := ⟨200, .ok "", .error "invalid JSON", .ok []⟩

/-- A 404 response. -/
def respNotFound : HttpResponse := ⟨404, .ok "", .error "invalid JSON", .ok []⟩

/-- A 301 redirect response. -/
def respRedirect : HttpResponse := ⟨301, .ok "", .error "invalid JSON", .ok []⟩

/-- A site whose root document parses to a single
link rel="icon" href="/static/icon.png" element; every HEAD probe
answers 404 and every other GET yields a non-JSON 200 body. -/
def envC1 : Env :=
  { fetchGet := fun _ => .ok respOkNoJson
    fetchHead := fun _ => .ok respNotFound
    parseHtml := fun _ => [⟨"link", [("rel", "icon"), ("href", "/static/icon.png")]⟩]
    decodeImage := fun _ => .error "unsupported image format" }

example : findAll (envC1.parseHtml "") "icon" = [] := rfl

example : findAll (envC1.parseHtml "") "link"
    = [⟨"link", [("rel", "icon"), ("href", "/static/icon.png")]⟩] := rfl

/-- A site whose root document parses to an apple-touch-icon link and a
shortcut icon link, both with absolute hrefs; every HEAD probe answers
404 and every GET yields a non-JSON 200 body. -/
def envC2 : Env :=
  { fetchGet := fun _ => .ok respOkNoJson
    fetchHead := fun _ => .ok respNotFound
    parseHtml := fun _ =>
      [⟨"link", [("rel", "apple-touch-icon"), ("href", "https://example.com/apple.png")]⟩,
       ⟨"link", [("rel", "shortcut icon"), ("href", "https://example.com/shortcut.ico")]⟩]
    decodeImage := fun _ => .error "unsupported image format" }

/-- A site whose root document parses to a single og:image meta tag with
a protocol-relative content value carrying an out-of-range port; every
HEAD probe answers 404. -/
def envC3 : Env :=
  { fetchGet := fun _ => .ok respOkNoJson
    fetchHead := fun _ => .ok respNotFound
    parseHtml := fun _ =>
      [⟨"meta", [("property", "og:image"), ("content", "//h:99999999999")]⟩]
    decodeImage := fun _ => .error "unsupported image format" }

/-- A site whose every GET fails at the transport level. -/
def envDown : Env :=
  { fetchGet := fun _ => .error "connection refused"
    fetchHead := fun _ => .error "connection refused"
    parseHtml := fun _ => []
    decodeImage := fun _ => .error "unsupported image format" }

/-- C1: the claim states that for an HTML root document containing
link rel="icon" href="/static/icon.png" and base URL
https://example.com, find_icon_url returns
https://example.com/static/icon.png through the link-tag scan.  The
code passes the rel values to soup.tag, which matches element tag names
and not rel attributes, so the link element is never matched by the
first three entries; the fourth entry treats its href as a manifest URL,
whose direct parse of the relative href fails.  Evaluating the model at
exactly the claimed input yields Ok(None) instead. -/
theorem c1_link_rel_icon_eval :
    find_icon_url envC1 "https://example.com" = .ok none ∧
    (Except.ok none : Except String (Option String))
      ≠ .ok (some "https://example.com/static/icon.png") := by
  refine ⟨rfl, fun hcontra => ?_⟩
  injection hcontra with hcontra
  exact Option.noConfusion hcontra

/-- C2: the claim states that HTML containing both an apple-touch-icon
link and a shortcut icon link always resolves to the apple-touch-icon
URL.  Because soup.tag matches tag names and not rel attributes, neither
link is found by the first three scan entries, and the manifest entry
fetches each href and fails to read the bodies as JSON; evaluation at
such a document yields Ok(None) instead of the apple-touch-icon URL. -/
theorem c2_priority_eval :
    find_icon_url envC2 "https://example.com" = .ok none ∧
    (Except.ok none : Except String (Option String))
      ≠ .ok (some "https://example.com/apple.png") := by
  refine ⟨rfl, fun hcontra => ?_⟩
  injection hcontra with hcontra
  exact Option.noConfusion hcontra

/-- C3 counterexample: a malformed og:image content value (a
protocol-relative reference with an out-of-range port) makes
find_icon_url return Err, because the question mark on utils.rs line 81
propagates the join failure; the claim says such a value never causes an
Err. -/
theorem c3_counterexample :
    find_icon_url envC3 "https://example.com" = .error "invalid URL" := rfl

/-- C4 counterexample: a transport-level failure is not classified as
the caller-facing not-accessible outcome; main maps the Err from
is_website_up to a distinct 500 check-failed response (lib.rs line 24),
not to the 404 "Website is not accessible" response of Ok(false). -/
theorem c4_counterexample :
    reachabilityGate (is_website_up envDown "https://example.com")
      = .checkFailedResponse ∧
    ReachabilityOutcome.checkFailedResponse ≠ ReachabilityOutcome.notAccessibleResponse :=
  ⟨rfl, by decide⟩

/-- The URL https://example.com/favicon.ico as a parsed value. -/
def exU1 : StdUrl := ⟨"https".data, "example.com".data, ["favicon.ico".data], none⟩

example : StdUrl.join exBase "favicon.ico" = some exU1 := rfl

/-- C4 (amended): the reachability check issues a single GET; main
proceeds exactly when the status is 2xx and answers the not-accessible
outcome exactly on any other status, with no retries; a transport-level
failure is not classified as not-accessible but surfaces as Err, which
main maps to the distinct check-failed outcome. -/
theorem c4_amended :
    (∀ (env : Env) (url : String) (u : StdUrl) (resp : HttpResponse),
      StdUrl.parse url = some u → env.fetchGet u.toString = .ok resp →
        is_website_up env url
          = .ok (decide (200 ≤ resp.statusCode ∧ resp.statusCode < 300)) ∧
        (reachabilityGate (is_website_up env url) = .proceed ↔
          (200 ≤ resp.statusCode ∧ resp.statusCode < 300)) ∧
        (reachabilityGate (is_website_up env url) = .notAccessibleResponse ↔
          ¬(200 ≤ resp.statusCode ∧ resp.statusCode < 300))) ∧
    (∀ (env : Env) (url : String) (u : StdUrl) (e : String),
      StdUrl.parse url = some u → env.fetchGet u.toString = .error e →
        is_website_up env url = .error e ∧
        reachabilityGate (is_website_up env url) = .checkFailedResponse) := by
  constructor
  · intro env url u resp hp hg
    have hw : is_website_up env url
        = .ok (decide (200 ≤ resp.statusCode ∧ resp.statusCode < 300)) := by
      simp only [is_website_up, hp, hg]
    refine ⟨hw, ?_, ?_⟩
    · rw [hw]
      by_cases h2 : 200 ≤ resp.statusCode ∧ resp.statusCode < 300
      · rw [decide_eq_true h2]
        simp [reachabilityGate, h2]
      · rw [decide_eq_false h2]
        simp [reachabilityGate, h2]
    · rw [hw]
      by_cases h2 : 200 ≤ resp.statusCode ∧ resp.statusCode < 300
      · rw [decide_eq_true h2]
        simp [reachabilityGate, h2]
      · rw [decide_eq_false h2]
        simp [reachabilityGate, h2]
  · intro env url u e hp hg
    have hw : is_website_up env url = .error e := by
      simp only [is_website_up, hp, hg]
    exact ⟨hw, by rw [hw]; rfl⟩

theorem c4_amended_witness :
    is_website_up envC1 "https://example.com"
      = .ok (decide (200 ≤ respOkNoJson.statusCode ∧ respOkNoJson.statusCode < 300)) ∧
    reachabilityGate (is_website_up envDown "https://example.com") = .checkFailedResponse := by
  constructor
  · exact (c4_amended.1 envC1 "https://example.com" exBase respOkNoJson rfl rfl).1
  · exact (c4_amended.2 envDown "https://example.com" exBase "connection refused" rfl rfl).2

/-- C3 (amended): failures inside the manifest sub-strategy, failed
existence checks at well-known paths and a failing fallback check are
locally absorbed and resolution continues; but a malformed URL that
fails to join in the og:image step (or in an href of the link-tag scan)
propagates, making find_icon_url as a whole return Err, as does the
root-document fetch itself. -/
theorem c3_amended :
    (∀ (env : Env) (base : StdUrl) (e : HtmlElement) (rest : List HtmlElement)
        (link msg : String),
      HtmlElement.get e "href" = some link →
      process_manifest env link base = .error msg →
      scanElements env base manifestKey "href" (e :: rest)
        = scanElements env base manifestKey "href" rest) ∧
    (∀ (env : Env) (base : StdUrl) (p : String) (rest : List String)
        (u : StdUrl) (msg : String),
      StdUrl.join base p = some u →
      check_url_exists env u.toString = .error msg →
      wellKnownLoop env base (p :: rest) = wellKnownLoop env base rest) ∧
    (∀ (env : Env) (url msg : String),
      check_url_exists env (fallbackUrlOf url) = .error msg →
      fallbackStep env url = .ok none) ∧
    (∀ (env : Env) (url : String) (base : StdUrl) (resp : HttpResponse)
        (html : String) (m : HtmlElement) (content msg : String),
      StdUrl.parse url = some base →
      env.fetchGet base.toString = .ok resp →
      resp.textResult = .ok html →
      scanIcons env (env.parseHtml html) base iconsList = .ok none →
      wellKnownLoop env base wellKnownIcons = .ok none →
      findOgImage (env.parseHtml html) = some m →
      HtmlElement.get m "content" = some content →
      validate_and_construct_url content base = .error msg →
      find_icon_url env url = .error msg) := by
  refine ⟨?_, ?_, ?_, ?_⟩
  · intro env base e rest link msg hget hpm
    simp only [scanElements, hget, beq_self_eq_true, if_true, hpm]
  · intro env base p rest u msg hj hc
    simp only [wellKnownLoop, hj, hc]
  · intro env url msg hc
    simp only [fallbackStep, hc]
  · intro env url base resp html m content msg hp hg ht hs hwk hog hcontent hval
    rw [find_icon_url_after_scan env url base resp html hp hg ht hs]
    simp only [afterScan, hwk, ogStep, hog, hcontent, hval]

theorem c3_amended_witness :
    scanElements envC1 exBase manifestKey "href" [⟨"link", [("href", "/m.json")]⟩]
      = scanElements envC1 exBase manifestKey "href" [] ∧
    wellKnownLoop envDown exBase ["favicon.ico"] = wellKnownLoop envDown exBase [] ∧
    fallbackStep envDown "https://example.com" = .ok none ∧
    find_icon_url envC3 "https://example.com" = .error "invalid URL" := by
  refine ⟨?_, ?_, ?_, ?_⟩
  · exact c3_amended.1 envC1 exBase ⟨"link", [("href", "/m.json")]⟩ []
      "/m.json" "relative URL without a base" rfl rfl
  · exact c3_amended.2.1 envDown exBase "favicon.ico" [] exU1 "connection refused" rfl rfl
  · exact c3_amended.2.2.1 envDown "https://example.com" "connection refused" rfl
  · exact c3_amended.2.2.2 envC3 "https://example.com" exBase respOkNoJson ""
      ⟨"meta", [("property", "og:image"), ("content", "//h:99999999999")]⟩
      "//h:99999999999" "invalid URL" rfl rfl rfl rfl rfl rfl rfl rfl

/-- C5: when the link-tag scan yields no candidate, find_icon_url probes
the well-known paths in the literal order favicon.ico, favicon.png,
apple-touch-icon.png with HEAD existence checks; the first whose check
answers exactly status 200 is returned, while any other status
(including redirects) is treated as not existing.  Nothing is assumed
about the environment at apple-touch-icon.png, so the result never
depends on it: later paths are never probed. -/
theorem c5_well_known_order (env : Env) (url : String) (base : StdUrl)
    (resp : HttpResponse) (html : String) (u₁ u₂ : StdUrl) (r₁ r₂ : HttpResponse)
    (hp : StdUrl.parse url = some base)
    (hg : env.fetchGet base.toString = .ok resp)
    (ht : resp.textResult = .ok html)
    (hs : scanIcons env (env.parseHtml html) base iconsList = .ok none)
    (hj₁ : StdUrl.join base "favicon.ico" = some u₁)
    (hh₁ : env.fetchHead u₁.toString = .ok r₁)
    (hr₁ : r₁.statusCode ≠ 200)
    (hj₂ : StdUrl.join base "favicon.png" = some u₂)
    (hh₂ : env.fetchHead u₂.toString = .ok r₂)
    (hr₂ : r₂.statusCode = 200) :
    find_icon_url env url = .ok (some u₂.toString) := by
  rw [find_icon_url_after_scan env url base resp html hp hg ht hs]
  have hbase := parse_WF url base hp
  have hu₁ : u₁.WF := join_WF base "favicon.ico" u₁ hbase hj₁
  have hu₂ : u₂.WF := join_WF base "favicon.png" u₂ hbase hj₂
  have hc₁ : check_url_exists env u₁.toString = .ok false := by
    simp only [check_url_exists, parse_toString u₁ hu₁, hh₁]
    rw [beq_eq_false_iff_ne.mpr hr₁]
  have hc₂ : check_url_exists env u₂.toString = .ok true := by
    simp only [check_url_exists, parse_toString u₂ hu₂, hh₂]
    rw [beq_iff_eq.mpr hr₂]
  simp only [afterScan, wellKnownIcons, wellKnownLoop, hj₁, hc₁, hj₂, hc₂]

/-- A site with no icon markup whose favicon.ico answers a 301 redirect
to the HEAD probe and whose favicon.png answers 200. -/
def envC5 : Env :=
  { fetchGet := fun _ => .ok respOkNoJson
    fetchHead := fun s =>
      if s == "https://example.com/favicon.ico" then .ok respRedirect
      else if s == "https://example.com/favicon.png" then .ok respOkNoJson
      else .ok respNotFound
    parseHtml := fun _ => []
    decodeImage := fun _ => .error "unsupported image format" }

/-- The URL https://example.com/favicon.png as a parsed value. -/
def exU2 : StdUrl := ⟨"https".data, "example.com".data, ["favicon.png".data], none⟩

theorem c5_witness :
    find_icon_url envC5 "https://example.com" = .ok (some "https://example.com/favicon.png") := by
  have h := c5_well_known_order envC5 "https://example.com" exBase respOkNoJson ""
    exU1 exU2 respRedirect respOkNoJson rfl rfl rfl rfl rfl rfl (by decide) rfl rfl rfl
  exact h

theorem c9_witness : AbsoluteCandidate "https://example.com/favicon.png" :=
  c9_absolute_candidates envC5 "https://example.com" "https://example.com/favicon.png" rfl

/-- C6: for every decodable input and positive target size, the
fetch-and-rescale pipeline yields exactly the nearest-neighbor rescale
of the decoded image to size by size, encoded in the fixed PNG format;
the width and height are exactly the requested size regardless of the
source dimensions, and each output pixel is sampled independently along
the two axes. -/
theorem c6_resize_square (env : Env) (url : String) (u : StdUrl) (size : Nat)
    (resp : HttpResponse) (bytes : List Nat) (img : RasterImage)
    (hp : StdUrl.parse url = some u)
    (hg : env.fetchGet u.toString = .ok resp)
    (h2 : 200 ≤ resp.statusCode ∧ resp.statusCode < 300)
    (hb : resp.bytesResult = .ok bytes)
    (hd : env.decodeImage bytes = .ok img)
    (hsize : 0 < size) :
    fetch_and_scale_icon env url size = .ok (writeToPng (resizeExactNearest img size size)) ∧
    (resizeExactNearest img size size).width = size ∧
    (resizeExactNearest img size size).height = size ∧
    (writeToPng (resizeExactNearest img size size)).format = ImageFormat.png ∧
    (resizeExactNearest img size size).pixels
      = fun x y => img.pixels (x * img.width / size) (y * img.height / size) := by
  refine ⟨?_, rfl, rfl, rfl, rfl⟩
  simp only [fetch_and_scale_icon, hp, hg]
  rw [if_pos h2]
  simp only [hb, resize_image, hd]

/-- The URL https://example.com/icon.png as a parsed value. -/
def exU3 : StdUrl := ⟨"https".data, "example.com".data, ["icon.png".data], none⟩

/-- A 2 by 1 source image with constant pixel value. -/
def imgC6 : RasterImage := ⟨2, 1, fun _ _ => 7⟩

/-- The 200 response serving the bytes of the source image. -/
def respC6 : HttpResponse := ⟨200, .ok "", .error "invalid JSON", .ok [137, 80]⟩

/-- A site serving a decodable 2 by 1 image at every URL. -/
def envC6 : Env :=
  { fetchGet := fun _ => .ok respC6
    fetchHead := fun _ => .ok respNotFound
    parseHtml := fun _ => []
    decodeImage := fun _ => .ok imgC6 }

theorem c6_witness :
    fetch_and_scale_icon envC6 "https://example.com/icon.png" 32
      = .ok (writeToPng (resizeExactNearest imgC6 32 32)) ∧
    (resizeExactNearest imgC6 32 32).width = 32 ∧
    (resizeExactNearest imgC6 32 32).height = 32 ∧
    (writeToPng (resizeExactNearest imgC6 32 32)).format = ImageFormat.png ∧
    (resizeExactNearest imgC6 32 32).pixels
      = fun x y => imgC6.pixels (x * imgC6.width / 32) (y * imgC6.height / 32) :=
  c6_resize_square envC6 "https://example.com/icon.png" exU3 32 respC6 [137, 80] imgC6
    rfl rfl (by decide) rfl rfl (by decide)

/-- C7: when the fetch of the candidate URL answers a status outside the
2xx range, fetch_and_scale_icon fails with a fetch error carrying the
observed status.  The conclusion does not depend on the response body or
on the decoder, so the body is never read or decoded. -/
theorem c7_non_2xx (env : Env) (url : String) (u : StdUrl) (size : Nat) (resp : HttpResponse)
    (hp : StdUrl.parse url = some u)
    (hg : env.fetchGet u.toString = .ok resp)
    (h2 : ¬(200 ≤ resp.statusCode ∧ resp.statusCode < 300)) :
    fetch_and_scale_icon env url size
      = .error ("Failed to fetch the original image: HTTP " ++ Nat.repr resp.statusCode) := by
  simp only [fetch_and_scale_icon, hp, hg]
  rw [if_neg h2]

/-- A site answering 404 to every GET. -/
def envC7 : Env :=
  { fetchGet := fun _ => .ok respNotFound
    fetchHead := fun _ => .ok respNotFound
    parseHtml := fun _ => []
    decodeImage := fun _ => .error "unsupported image format" }

theorem c7_witness :
    fetch_and_scale_icon envC7 "https://example.com/icon.png" 32
      = .error "Failed to fetch the original image: HTTP 404" := by
  have h := c7_non_2xx envC7 "https://example.com/icon.png" exU3 32 respNotFound
    rfl rfl (by decide)
  exact h

theorem scanElements_manifest_none (env : Env) (base : StdUrl) (elems : List HtmlElement)
    (h : ∀ e ∈ elems, ∀ link, HtmlElement.get e "href" = some link →
      process_manifest env link base = .ok none ∨
        ∃ msg, process_manifest env link base = .error msg) :
    scanElements env base manifestKey "href" elems = .ok none := by
  induction elems with
  | nil => rfl
  | cons e rest ih =>
    simp only [scanElements]
    cases hget : HtmlElement.get e "href" with
    | none => exact ih (fun e' he' => h e' (List.mem_cons_of_mem e he'))
    | some link =>
      simp only [beq_self_eq_true, if_true]
      rcases h e (List.mem_cons_self e rest) link hget with hpm | ⟨msg, hpm⟩
      · simp only [hpm]
        exact ih (fun e' he' => h e' (List.mem_cons_of_mem e he'))
      · simp only [hpm]
        exact ih (fun e' he' => h e' (List.mem_cons_of_mem e he'))

/-- C8: a manifest whose fetched content is unparsable as JSON makes
process_manifest return the parse error, and a manifest lacking an icons
array makes it return no candidate; in both cases the call site absorbs
the outcome, and when the first three scan entries match no element and
every link element's href leads to such a manifest outcome, find_icon_url
does not abort but continues with the well-known-path probing and the
later strategies (afterScan). -/
theorem c8_manifest_recoverable :
    (∀ (env : Env) (link : String) (base parsed : StdUrl) (resp : HttpResponse) (msg : String),
      StdUrl.parse link = some parsed →
      env.fetchGet parsed.toString = .ok resp →
      resp.jsonResult = .error msg →
      process_manifest env link base = .error msg) ∧
    (∀ (env : Env) (link : String) (base parsed : StdUrl) (resp : HttpResponse) (j : Json),
      StdUrl.parse link = some parsed →
      env.fetchGet parsed.toString = .ok resp →
      resp.jsonResult = .ok j →
      Json.asArray (Json.index j "icons") = none →
      process_manifest env link base = .ok none) ∧
    (∀ (env : Env) (url : String) (base : StdUrl) (resp : HttpResponse) (html : String),
      StdUrl.parse url = some base →
      env.fetchGet base.toString = .ok resp →
      resp.textResult = .ok html →
      findAll (env.parseHtml html) "apple-touch-icon" = [] →
      findAll (env.parseHtml html) "icon" = [] →
      findAll (env.parseHtml html) "shortcut icon" = [] →
      (∀ e ∈ findAll (env.parseHtml html) "link", ∀ link,
        HtmlElement.get e "href" = some link →
        process_manifest env link base = .ok none ∨
          ∃ msg, process_manifest env link base = .error msg) →
      find_icon_url env url = afterScan env url (env.parseHtml html) base) := by
  refine ⟨?_, ?_, ?_⟩
  · intro env link base parsed resp msg hpl hg hjson
    simp only [process_manifest, hpl, hg, hjson]
  · intro env link base parsed resp j hpl hg hjson hicons
    simp only [process_manifest, hpl, hg, hjson, hicons]
  · intro env url base resp html hp hg ht hfa1 hfa2 hfa3 hmall
    have e1 : scanElements env base "apple-touch-icon" "href"
        (findAll (env.parseHtml html) (tagOf "apple-touch-icon")) = .ok none := by
      rw [show tagOf "apple-touch-icon" = "apple-touch-icon" from rfl, hfa1]
      rfl
    have e2 : scanElements env base "icon" "href"
        (findAll (env.parseHtml html) (tagOf "icon")) = .ok none := by
      rw [show tagOf "icon" = "icon" from rfl, hfa2]
      rfl
    have e3 : scanElements env base "shortcut icon" "href"
        (findAll (env.parseHtml html) (tagOf "shortcut icon")) = .ok none := by
      rw [show tagOf "shortcut icon" = "shortcut icon" from rfl, hfa3]
      rfl
    have e4 : scanElements env base manifestKey "href"
        (findAll (env.parseHtml html) (tagOf manifestKey)) = .ok none := by
      rw [show tagOf manifestKey = "link" from rfl]
      refine scanElements_manifest_none env base _ (fun e he link hl => ?_)
      exact hmall e he link hl
    have hs : scanIcons env (env.parseHtml html) base iconsList = .ok none := by
      simp only [scanIcons, iconsList, e1, e2, e3, e4]
    exact find_icon_url_after_scan env url base resp html hp hg ht hs

/-- The link element pointing at the example manifest. -/
def manifestElemC8 : HtmlElement :=
  ⟨"link", [("rel", "manifest"), ("href", "https://example.com/manifest.json")]⟩

/-- A site whose root document holds one manifest link and whose
manifest parses as a JSON object with no icons array. -/
def envC8 : Env :=
  { fetchGet := fun s =>
      if s == "https://example.com/manifest.json" then
        .ok ⟨200, .ok "", .ok (Json.obj []), .ok []⟩
      else .ok respOkNoJson
    fetchHead := fun _ => .ok respNotFound
    parseHtml := fun _ => [manifestElemC8]
    decodeImage := fun _ => .error "unsupported image format" }

theorem c8_witness :
    process_manifest envC8 "https://example.com/manifest.json" exBase = .ok none ∧
    find_icon_url envC8 "https://example.com"
      = afterScan envC8 "https://example.com" (envC8.parseHtml "") exBase := by
  constructor
  · exact c8_manifest_recoverable.2.1 envC8 "https://example.com/manifest.json" exBase
      ⟨"https".data, "example.com".data, ["manifest.json".data], none⟩
      ⟨200, .ok "", .ok (Json.obj []), .ok []⟩ (Json.obj []) rfl rfl rfl rfl
  · refine c8_manifest_recoverable.2.2 envC8 "https://example.com" exBase respOkNoJson ""
      rfl rfl rfl rfl rfl rfl (fun e he link hl => ?_)
    have he' : e = manifestElemC8 := by
      simpa [findAll, envC8, manifestElemC8] using he
    subst he'
    have hcalc : HtmlElement.get manifestElemC8 "href"
        = some "https://example.com/manifest.json" := rfl
    rw [hcalc] at hl
    injection hl with hl
    subst hl
    exact Or.inl rfl

/-- C10: a manifest link whose href is not an absolute URL makes
process_manifest fail at URL parsing; the href is parsed directly and
never joined against the base URL (the error does not depend on the
base), the call site absorbs the error and the scan continues with the
remaining elements, so such a link never yields a candidate. -/
theorem c10_relative_manifest (env : Env) (link : String) (base : StdUrl)
    (hrel : StdUrl.parse link = none) :
    process_manifest env link base = .error "relative URL without a base" ∧
    (∀ (e : HtmlElement) (rest : List HtmlElement),
      HtmlElement.get e "href" = some link →
      scanElements env base manifestKey "href" (e :: rest)
        = scanElements env base manifestKey "href" rest) := by
  have hpm : process_manifest env link base = .error "relative URL without a base" := by
    simp only [process_manifest, hrel]
  refine ⟨hpm, fun e rest hget => ?_⟩
  simp only [scanElements, hget, beq_self_eq_true, if_true, hpm]

theorem c10_witness :
    process_manifest envC1 "/manifest.json" exBase = .error "relative URL without a base" ∧
    scanElements envC1 exBase manifestKey "href"
      [⟨"link", [("href", "/manifest.json")]⟩] = .ok none := by
  have h := c10_relative_manifest envC1 "/manifest.json" exBase rfl
  refine ⟨h.1, ?_⟩
  rw [h.2 ⟨"link", [("href", "/manifest.json")]⟩ [] rfl]
  rfl
